import Mathlib

/-
Verification of the record-extraction utility in
src/01_Python_Basics/Mini_Projects/file_parser.py.

The development is a shallow embedding of that module:

* a text file is modelled as the list of its lines, each line given
  without its trailing newline character (the decoders apply the
  source's rstrip of newlines themselves, which is the identity on
  this representation; for the whole-document decoders the content
  string is recovered by interleaving newlines);
* Python dicts are modelled as association lists built exclusively
  through dictInsert, which reproduces dict assignment (replace in
  place when the key exists, append otherwise), so insertion order is
  preserved exactly as in CPython;
* raised exceptions are modelled by the PError type, and a generator
  run is modelled by the pair of the records it yields before
  finishing or raising, together with the optional error it raises;
* the laziness of Python generators (the body only runs when the
  consumer first requests an element) and the try/finally handle
  release in FileParser.parse are modelled explicitly in parseModel
  below.
-/

set_option autoImplicit false

/-- Keys of a record: either a named field or the DictReader restkey,
which in the source is the Python value None (csv.DictReader is
constructed with its default restkey=None). -/
inductive Key where
  | name (s : String)
  | restkey
deriving DecidableEq, Repr

/-- JSON values as produced by the platform json module; numbers are
kept as their raw source text (the int/float distinction plays no role
in any claim). -/
inductive Json where
  | null
  | bool (b : Bool)
  | num (raw : String)
  | str (s : String)
  | arr (items : List Json)
  | obj (fields : List (String × Json))
deriving Repr

/-- Values stored in a record: strings, the Python None, positive line
numbers, lists (XML repeated tags and the DictReader overflow), and
arbitrary JSON values carried through by the JSON decoders. -/
inductive Value where
  | str (s : String)
  | null
  | nat (n : Nat)
  | vlist (items : List Value)
  | json (j : Json)
deriving Repr

/-- A record is an ordered mapping, as produced by a Python dict whose
entries are inserted one at a time. -/
abbrev Record := List (Key × Value)

/-- Python dict assignment d[k] = v: if the key is present its value is
replaced in place, otherwise the pair is appended. -/
def dictInsert (r : Record) (k : Key) (v : Value) : Record :=
  if k ∈ r.map Prod.fst then
    r.map (fun p => if p.1 = k then (k, v) else p)
  else
    r ++ [(k, v)]

/-- Python dict lookup d.get(k). -/
def dictGet (r : Record) (k : Key) : Option Value :=
  (r.find? (fun p => decide (p.1 = k))).map Prod.snd

/-- The ordered key list of a record. -/
def recordKeys (r : Record) : List Key :=
  r.map Prod.fst

/-- Python str.rstrip of the newline character: removes every trailing
newline. -/
def rstripN (s : String) : String :=
  String.mk ((s.toList.reverse.dropWhile (fun c => c = '\n')).reverse)

/-- Python str.ljust with the space fill character: pads on the right
up to the requested width, and leaves longer strings unchanged. -/
def pyLjust (s : String) (w : Nat) : String :=
  s ++ String.mk (List.replicate (w - s.length) ' ')

/-- Python slicing s[a:b] for 0 ≤ a ≤ b (the only shape the source
uses). -/
def pySlice (s : String) (a b : Nat) : String :=
  String.mk ((s.toList.drop a).take (b - a))

/-- The whitespace characters stripped by Python str.strip(). -/
def isPyWs (c : Char) : Bool :=
  c = ' ' ∨ c = '\t' ∨ c = '\n' ∨ c = '\r' ∨ c = Char.ofNat 11 ∨ c = Char.ofNat 12

/-- Python str.strip(): remove leading and trailing whitespace. -/
def pyStrip (s : String) : String :=
  String.mk (((s.toList.dropWhile isPyWs).reverse.dropWhile isPyWs).reverse)

/-- Python str.lower() on the ASCII range, which covers every
extension and format tag the source handles. -/
def charLower (c : Char) : Char :=
  if 'A' ≤ c ∧ c ≤ 'Z' then Char.ofNat (c.toNat + 32) else c

/-- Python str.lower() applied characterwise. -/
def pyLower (s : String) : String :=
  String.mk (s.toList.map charLower)

/-- Split a character list on a separator character; the result always
has one more group than there are separators. -/
def splitOnSep (sep : Char) : List Char → List (List Char)
  | [] => [[]]
  | c :: cs =>
    match splitOnSep sep cs with
    | [] => [[c]]
    | g :: gs => if c = sep then [] :: g :: gs else (c :: g) :: gs

/-- Index of the last occurrence of a character in a list, if any. -/
def lastIdxOf (c : Char) (cs : List Char) : Option Nat :=
  match cs with
  | [] => none
  | x :: xs =>
    match lastIdxOf c xs with
    | some i => some (i + 1)
    | none => if x = c then some 0 else none

/-- Extension part of os.path.splitext (posixpath): the suffix from the
last dot, provided that dot lies after the last path separator and some
non-dot character of the basename comes before it; otherwise empty. -/
def splitextExt (p : String) : String :=
  let cs := p.toList
  match lastIdxOf '.' cs with
  | none => ""
  | some d =>
    let fnStart : Nat :=
      match lastIdxOf '/' cs with
      | some si => si + 1
      | none => 0
    let dotAfterSep : Bool :=
      match lastIdxOf '/' cs with
      | some si => decide (si < d)
      | none => true
    if dotAfterSep ∧ ((cs.drop fnStart).take (d - fnStart)).any (fun c => c ≠ '.') then
      String.mk (cs.drop d)
    else ""

/-- Translation of the module-level _guess_format: dispatch on the
lowercased extension, defaulting to the tag "unknown". -/
def guessFormat (path : String) : String :=
  let ext := pyLower (splitextExt path)
  if ext ∈ [".csv"] then "csv"
  else if ext ∈ [".tsv", ".tab"] then "tsv"
  else if ext ∈ [".json"] then "json"
  else if ext ∈ [".ndjson", ".jsonl"] then "ndjson"
  else if ext ∈ [".xml"] then "xml"
  else if ext ∈ [".ini", ".cfg"] then "ini"
  else if ext ∈ [".txt", ".log"] then "text"
  else "unknown"

/-- One record of FileParser._parse_text: the dict literal with the
1-based line number and the line with trailing newlines stripped. -/
def textRecord (i : Nat) (line : String) : Record :=
  [(Key.name "line_no", Value.nat i), (Key.name "text", Value.str (rstripN line))]

/-- Translation of FileParser._parse_text (enumerate from 1 over the
lines of the stream, blank lines included). -/
def textDecode (lines : List String) : List Record :=
  lines.enum.map (fun p => textRecord (p.1 + 1) p.2)

/-- Translation of FileParser._parse_unknown, whose body is the same
per-line loop as _parse_text. -/
def unknownDecode (lines : List String) : List Record :=
  lines.enum.map (fun p =>
    [(Key.name "line_no", Value.nat (p.1 + 1)), (Key.name "text", Value.str (rstripN p.2))])

/-- One record of FileParser._parse_fixed_width: the line is stripped
of trailing newlines, right-padded with spaces to the total schema
width, sliced at the cumulative offsets, each chunk trimmed, and the
1-based line number stored last under _line_no. -/
def fixedRowRecord (schema : List (String × Nat)) (lineNo : Nat) (line : String) : Record :=
  let totalWidth := (schema.map Prod.snd).sum
  let raw := pyLjust (rstripN line) totalWidth
  let body := (schema.foldl
    (fun (acc : Record × Nat) nw =>
      (dictInsert acc.1 (Key.name nw.1) (Value.str (pyStrip (pySlice raw acc.2 (acc.2 + nw.2)))),
       acc.2 + nw.2))
    (([] : Record), 0)).1
  dictInsert body (Key.name "_line_no") (Value.nat lineNo)

/-- Translation of the per-line loop of FileParser._parse_fixed_width
(the schema presence check lives in the dispatcher model, where the
order of the generator's effects is tracked). -/
def fixedDecode (schema : List (String × Nat)) (lines : List String) : List Record :=
  lines.enum.map (fun p => fixedRowRecord schema (p.1 + 1) p.2)

/-- One parsed csv row: the csv module yields the empty row for a blank
line, and otherwise the fields split on the (single-character)
delimiter; quoting plays no role in any claim and is not modelled. -/
def csvReadRow (delim : String) (line : String) : List String :=
  if line = "" then []
  else (splitOnSep (delim.toList.headD ',') line.toList).map String.mk

/-- One record of csv.DictReader.__next__ (CPython csv.py, with the
default restkey=None and restval=None): zip the header with the row
into a dict, then either store the overflow list under the restkey or
fill the missing trailing header fields with None. -/
def csvRowRecord (header row : List String) : Record :=
  let d := (List.zip header row).foldl
    (fun r kv => dictInsert r (Key.name kv.1) (Value.str kv.2)) []
  if header.length < row.length then
    dictInsert d Key.restkey (Value.vlist ((row.drop header.length).map Value.str))
  else if row.length < header.length then
    (header.drop row.length).foldl (fun r k => dictInsert r (Key.name k) Value.null) d
  else d

/-- csv.DictReader over the lines of the stream: the first row becomes
the fieldnames, and blank rows among the data rows are skipped. -/
def dictReaderRecords (delim : String) (lines : List String) : List Record :=
  match lines.map (csvReadRow delim) with
  | [] => []
  | header :: rest => (rest.filter (fun r => !r.isEmpty)).map (csvRowRecord header)

/-- Translation of FileParser._parse_csv: the delimiter defaults to the
comma and each DictReader row is copied entry by entry. -/
def csvDecode (csvDelim : Option String) (lines : List String) : List Record :=
  dictReaderRecords (csvDelim.getD ",") lines

/-- Translation of FileParser._parse_tsv: a DictReader with the tab
delimiter. -/
def tsvDecode (lines : List String) : List Record :=
  dictReaderRecords "\t" lines

/-- The error kinds the source can raise: ValueError (configuration
errors, unsupported formats, reads from a closed file),
json.JSONDecodeError and xml parse errors.  Message positions (line and
column suffixes of the platform messages) are not modelled. -/
inductive PError where
  | valueError (msg : String)
  | jsonDecodeError (msg : String)
  | xmlParseError (msg : String)
deriving DecidableEq, Repr

/-- The ValueError raised by CPython when a closed text file is read. -/
def ioClosedError : PError :=
  PError.valueError "I/O operation on closed file"

/-- JSON whitespace as skipped by the platform json scanner. -/
def skipWs (cs : List Char) : List Char :=
  cs.dropWhile (fun c => c = ' ' ∨ c = '\t' ∨ c = '\n' ∨ c = '\r')

/-- Consume an expected literal character sequence. -/
def dropLit : List Char → List Char → Option (List Char)
  | [], cs => some cs
  | _ :: _, [] => none
  | p :: ps, c :: cs => if c = p then dropLit ps cs else none

/-- Characters the json scanner accepts inside a number token. -/
def isNumChar (c : Char) : Bool :=
  c.isDigit || c = '-' || c = '+' || c = '.' || c = 'e' || c = 'E'

/-- Scan a JSON string body after the opening quote.  The common
escapes are mapped as by the platform scanner; \u escapes are beyond
what any claim exercises and are kept as the literal letter. -/
def scanJStr : Nat → List Char → Option (String × List Char)
  | 0, _ => none
  | _ + 1, [] => none
  | fuel + 1, c :: cs =>
    if c = '"' then some ("", cs)
    else if c = '\\' then
      match cs with
      | [] => none
      | e :: cs2 =>
        let ec : Char :=
          if e = 'n' then '\n'
          else if e = 't' then '\t'
          else if e = 'r' then '\r'
          else if e = 'b' then Char.ofNat 8
          else if e = 'f' then Char.ofNat 12
          else e
        match scanJStr fuel cs2 with
        | some (s, rest) => some (String.mk (ec :: s.toList), rest)
        | none => none
    else
      match scanJStr fuel cs with
      | some (s, rest) => some (String.mk (c :: s.toList), rest)
      | none => none

mutual

/-- Recursive-descent model of the platform json scanner.  The fuel
argument only bounds the recursion depth; jsonLoads supplies more fuel
than any input can consume.  The scanner's first action on an input
with no leading token is the "Expecting value" failure, which is the
only behaviour the claims depend on. -/
def parseJVal : Nat → List Char → Except String (Json × List Char)
  | 0, _ => Except.error "fuel exhausted"
  | fuel + 1, cs =>
    match skipWs cs with
    | [] => Except.error "Expecting value"
    | c :: rest =>
      if c = 'n' then
        match dropLit "ull".toList rest with
        | some r => Except.ok (Json.null, r)
        | none => Except.error "Expecting value"
      else if c = 't' then
        match dropLit "rue".toList rest with
        | some r => Except.ok (Json.bool true, r)
        | none => Except.error "Expecting value"
      else if c = 'f' then
        match dropLit "alse".toList rest with
        | some r => Except.ok (Json.bool false, r)
        | none => Except.error "Expecting value"
      else if c = '"' then
        match scanJStr (rest.length + 1) rest with
        | some (s, r) => Except.ok (Json.str s, r)
        | none => Except.error "Unterminated string starting at"
      else if c = '[' then
        parseJArr fuel (skipWs rest) []
      else if c = '{' then
        parseJObj fuel (skipWs rest) []
      else if isNumChar c then
        let tok := (c :: rest).takeWhile isNumChar
        Except.ok (Json.num (String.mk tok), (c :: rest).dropWhile isNumChar)
      else Except.error "Expecting value"

/-- Elements of a JSON array after the opening bracket. -/
def parseJArr : Nat → List Char → List Json → Except String (Json × List Char)
  | 0, _, _ => Except.error "fuel exhausted"
  | _ + 1, [], _ => Except.error "Expecting value"
  | fuel + 1, c :: rest, acc =>
    if c = ']' ∧ acc.isEmpty then Except.ok (Json.arr [], rest)
    else
      match parseJVal fuel (c :: rest) with
      | Except.error e => Except.error e
      | Except.ok (v, r) =>
        match skipWs r with
        | ']' :: r2 => Except.ok (Json.arr (acc ++ [v]), r2)
        | ',' :: r2 => parseJArr fuel (skipWs r2) (acc ++ [v])
        | _ => Except.error "Expecting ',' delimiter"

/-- Members of a JSON object after the opening brace. -/
def parseJObj : Nat → List Char → List (String × Json) → Except String (Json × List Char)
  | 0, _, _ => Except.error "fuel exhausted"
  | _ + 1, [], _ =>
    Except.error "Expecting property name enclosed in double quotes"
  | fuel + 1, c :: rest, acc =>
    if c = '}' ∧ acc.isEmpty then Except.ok (Json.obj [], rest)
    else if c = '"' then
      match scanJStr (rest.length + 1) rest with
      | none => Except.error "Unterminated string starting at"
      | some (key, r) =>
        match skipWs r with
        | ':' :: r2 =>
          match parseJVal fuel r2 with
          | Except.error e => Except.error e
          | Except.ok (v, r3) =>
            match skipWs r3 with
            | '}' :: r4 => Except.ok (Json.obj (acc ++ [(key, v)]), r4)
            | ',' :: r4 => parseJObj fuel (skipWs r4) (acc ++ [(key, v)])
            | _ => Except.error "Expecting ',' delimiter"
        | _ => Except.error "Expecting ':' delimiter"
    else Except.error "Expecting property name enclosed in double quotes"

end

/-- Model of json.loads / json.load on the full stream content: parse
one value and require only trailing whitespace after it. -/
def jsonLoads (s : String) : Except PError Json :=
  match parseJVal (2 * s.length + 8) s.toList with
  | Except.error m => Except.error (PError.jsonDecodeError m)
  | Except.ok (v, rest) =>
    if skipWs rest = [] then Except.ok v
    else Except.error (PError.jsonDecodeError "Extra data")

/-- The record a JSON value becomes in FileParser._parse_json when it
is one element of a root array: a dict is the record itself, anything
else is wrapped under the key value. -/
def jsonItemRecord (item : Json) : Record :=
  match item with
  | Json.obj fields => fields.map (fun kv => (Key.name kv.1, Value.json kv.2))
  | _ => [(Key.name "value", Value.json item)]

/-- Translation of FileParser._parse_json after json.load succeeds:
a root list yields one record per element, a root dict is a single
record, any other root is wrapped under the key value. -/
def jsonRecords (data : Json) : List Record :=
  match data with
  | Json.arr items => items.map jsonItemRecord
  | Json.obj fields => [fields.map (fun kv => (Key.name kv.1, Value.json kv.2))]
  | _ => [[(Key.name "value", Value.json data)]]

/-- The whole-document JSON decode: load then shape. -/
def jsonDecode (content : String) : Except PError (List Record) :=
  match jsonLoads content with
  | Except.error e => Except.error e
  | Except.ok data => Except.ok (jsonRecords data)

/-- Translation of FileParser._parse_ndjson: strip each line, skip the
blank ones, parse each remaining line independently, and degrade a
failed parse to a record carrying the raw line. -/
def ndjsonDecode (lines : List String) : List Record :=
  lines.filterMap (fun line =>
    let l := pyStrip line
    if l = "" then none
    else some (match jsonLoads l with
      | Except.ok (Json.obj fields) => fields.map (fun kv => (Key.name kv.1, Value.json kv.2))
      | Except.ok v => [(Key.name "value", Value.json v)]
      | Except.error _ => [(Key.name "raw", Value.str l)]))

/-- An element of the tree returned by the platform markup parser: tag,
attributes in document order, optional text content, child elements in
document order. -/
inductive Element where
  | mk (tag : String) (attrib : List (String × String))
       (text : Option String) (children : List Element)

/-- Tag accessor. -/
def Element.tagOf : Element → String
  | Element.mk t _ _ _ => t

/-- Attribute accessor. -/
def Element.attribOf : Element → List (String × String)
  | Element.mk _ a _ _ => a

/-- Text accessor. -/
def Element.textOf : Element → Option String
  | Element.mk _ _ t _ => t

/-- Children accessor. -/
def Element.childrenOf : Element → List Element
  | Element.mk _ _ _ c => c

/-- The value stored for a child tag in FileParser._parse_xml: the
child's text, which is None for an element without text content. -/
def xmlTextValue : Option String → Value
  | some t => Value.str t
  | none => Value.null

/-- One record of FileParser._parse_xml for one direct child of the
root: attributes first, then child elements keyed by tag with repeats
promoted to a list, and a childless attribute-less element with
non-blank text degraded to the single reserved text field. -/
def xmlChildRecord (child : Element) : Record :=
  let r0 : Record := child.attribOf.foldl
    (fun r kv => dictInsert r (Key.name kv.1) (Value.str kv.2)) []
  let r1 : Record := child.childrenOf.foldl
    (fun r sub =>
      match dictGet r (Key.name sub.tagOf) with
      | some (Value.vlist l) =>
          dictInsert r (Key.name sub.tagOf) (Value.vlist (l ++ [xmlTextValue sub.textOf]))
      | some v =>
          dictInsert r (Key.name sub.tagOf) (Value.vlist [v, xmlTextValue sub.textOf])
      | none => dictInsert r (Key.name sub.tagOf) (xmlTextValue sub.textOf))
    r0
  match child.textOf with
  | none => r1
  | some t => if r1.isEmpty then (if pyStrip t = "" then r1 else [(Key.name "text", Value.str (pyStrip t))]) else r1

/-- Translation of the loop of FileParser._parse_xml: one record per
direct child of the document root. -/
def parseXmlRoot (root : Element) : List Record :=
  root.childrenOf.map xmlChildRecord

/-- Model of the whole-document markup parse (xml.etree.ElementTree.parse)
at the granularity the claims exercise: an input containing no element
at all fails with the parse error named no element found.  No claim
depends on parsing well-formed markup text; the record shaping the
source applies to a parsed tree is modelled directly on element trees
by parseXmlRoot above, so textual inputs that do contain markup are
mapped to a placeholder failure here and are never mentioned by any
theorem. -/
def etParseText (content : String) : Except PError Element :=
  if pyStrip content = "" then Except.error (PError.xmlParseError "no element found")
  else Except.error (PError.xmlParseError "markup text not modelled")

/-- The whole-document markup decode on stream content. -/
def xmlDecode (content : String) : Except PError (List Record) :=
  match etParseText content with
  | Except.error e => Except.error e
  | Except.ok root => Except.ok (parseXmlRoot root)

/-- Accumulated configparser state: sections in order of appearance,
each with its key/value pairs in order. -/
abbrev IniSections := List (String × List (String × String))

/-- Append a key/value pair to the named section. -/
def iniAddPair (secs : IniSections) (sec key val : String) : IniSections :=
  secs.map (fun s => if s.1 = sec then (s.1, s.2 ++ [(key, val)]) else s)

/-- Model of ConfigParser.read_file at the granularity the claims
exercise: section headers in brackets, key/value pairs split on the
first = or :, keys lowercased by the default optionxform, blank and
comment lines skipped, and a pair before any section header rejected
as the platform's missing-section-header error.  Continuation lines,
interpolation and duplicate-section errors are beyond what any claim
needs and are not modelled. -/
def iniParseLines : List String → Option String → IniSections → Except PError IniSections
  | [], _, acc => Except.ok acc
  | l :: ls, cur, acc =>
    let s := pyStrip l
    if s = "" then iniParseLines ls cur acc
    else if s.startsWith ";" ∨ s.startsWith "#" then iniParseLines ls cur acc
    else if s.startsWith "[" ∧ s.endsWith "]" then
      let nm := String.mk ((s.toList.drop 1).take (s.length - 2))
      iniParseLines ls (some nm) (acc ++ [(nm, [])])
    else
      match cur with
      | none => Except.error (PError.valueError "File contains no section headers")
      | some sec =>
        match s.toList.findIdx? (fun c => c = '=' ∨ c = ':') with
        | none => Except.error (PError.valueError "Source contains parsing errors")
        | some i =>
          let key := pyLower (pyStrip (String.mk (s.toList.take i)))
          let val := pyStrip (String.mk (s.toList.drop (i + 1)))
          iniParseLines ls cur (iniAddPair acc sec key val)

/-- Translation of FileParser._parse_ini: one record per section, the
reserved section-name field first and the section's pairs after it. -/
def iniDecode (lines : List String) : Except PError (List Record) :=
  match iniParseLines lines none [] with
  | Except.error e => Except.error e
  | Except.ok secs =>
    Except.ok (secs.map (fun s =>
      s.2.foldl (fun r kv => dictInsert r (Key.name kv.1) (Value.str kv.2))
        [(Key.name "__section__", Value.str s.1)]))

/-- The source argument of FileParser.parse: either a path together
with the content of the file it designates, or an already-open stream
with the optional name attribute the dispatcher inspects. -/
inductive Source where
  | path (p : String) (lines : List String)
  | stream (sname : Option String) (lines : List String)

/-- Line content of a source. -/
def Source.linesOf : Source → List String
  | Source.path _ ls => ls
  | Source.stream _ ls => ls

/-- The keyword options of FileParser.parse. -/
structure ParseOptions where
  csvDelimiter : Option String
  fixedSchema : Option (List (String × Nat))
  streamFlag : Bool

/-- The keys of the parser_map registry literal in FileParser.parse. -/
def registryTags : List String :=
  ["csv", "tsv", "json", "ndjson", "jsonl", "xml", "ini", "text", "log", "fixed", "unknown"]

/-- The name FileParser.parse feeds to _guess_format: the path itself,
or for a stream its name attribute defaulting to the empty string. -/
def sourceNameFor : Source → String
  | Source.path p _ => p
  | Source.stream sname _ => sname.getD ""

/-- Format resolution in FileParser.parse: the explicit argument when
given, otherwise _guess_format on the source name; the result is then
lowercased. -/
def resolveFormat (fmtArg : Option String) (src : Source) : String :=
  pyLower (match fmtArg with
   | none => guessFormat (sourceNameFor src)
   | some f => f)

/-- Reconstructed stream content for the whole-document decoders. -/
def contentOf (lines : List String) : String :=
  String.intercalate "\n" lines

/-- What consuming one decoder generator produces: the records yielded
before the generator finishes or raises, and the error it raises if
any. -/
abbrev DecodeRun := List Record × Option PError

/-- Lift a whole-document decode into a generator run. -/
def runOfExcept : Except PError (List Record) → DecodeRun
  | Except.ok recs => (recs, none)
  | Except.error e => ([], some e)

/-- Model of running the decoder generator selected for a registered
format tag, with the closed argument recording whether the underlying
handle has already been closed when the generator body first executes.
The fixed-width decoder checks its schema before touching the stream
(both a missing and an empty schema are Python-falsy), so that check
comes before the closed-handle check; every other decoder touches the
stream as its first effect. -/
def runDecoder (fmt : String) (opts : ParseOptions) (lines : List String) (closed : Bool) : DecodeRun :=
  if fmt = "fixed" then
    match opts.fixedSchema with
    | none => ([], some (PError.valueError "fixed_schema is required for fixed-width parsing"))
    | some [] => ([], some (PError.valueError "fixed_schema is required for fixed-width parsing"))
    | some schema =>
      if closed then ([], some ioClosedError)
      else (fixedDecode schema lines, none)
  else if closed then ([], some ioClosedError)
  else if fmt = "csv" then (csvDecode opts.csvDelimiter lines, none)
  else if fmt = "tsv" then (tsvDecode lines, none)
  else if fmt = "json" then runOfExcept (jsonDecode (contentOf lines))
  else if fmt = "ndjson" ∨ fmt = "jsonl" then (ndjsonDecode lines, none)
  else if fmt = "xml" then runOfExcept (xmlDecode (contentOf lines))
  else if fmt = "ini" then runOfExcept (iniDecode lines)
  else if fmt = "text" ∨ fmt = "log" then (textDecode lines, none)
  else (unknownDecode lines, none)

/-- The outcome of the FileParser.parse call itself: the call raised,
or it returned an unconsumed generator (whose later consumption
produces the recorded run), or it returned a materialized list. -/
inductive ParseReturn where
  | raised (e : PError)
  | lazyGen (run : DecodeRun)
  | eagerList (recs : List Record)

/-- Everything observable about one FileParser.parse call: its return
or raise, whether a handle the dispatcher opened for a path was closed
by the time the call finished (none when no handle was opened), and
whether the dispatcher closed a caller-supplied stream. -/
structure ParseResult where
  ret : ParseReturn
  ownedHandleClosed : Option Bool
  callerStreamClosed : Bool

/-- Model of FileParser.parse.  The unsupported-format check precedes
the open, so no handle exists on that exit.  For a path the dispatcher
opens a handle and the try/finally closes it on every exit of the call;
in particular, when stream=True the generator is returned unstarted and
the finally block has already closed the handle by the time the
consumer first requests a record, which is why the lazy run executes
against a closed handle.  For a caller-supplied stream close_after is
False and the stream is never closed. -/
def parseModel (src : Source) (fmtArg : Option String) (opts : ParseOptions) : ParseResult :=
  let fmt := resolveFormat fmtArg src
  if fmt ∈ registryTags then
    match src with
    | Source.path _ lines =>
      if opts.streamFlag then
        ⟨ParseReturn.lazyGen (runDecoder fmt opts lines true), some true, false⟩
      else
        match runDecoder fmt opts lines false with
        | (recs, none) => ⟨ParseReturn.eagerList recs, some true, false⟩
        | (_, some e) => ⟨ParseReturn.raised e, some true, false⟩
    | Source.stream _ lines =>
      if opts.streamFlag then
        ⟨ParseReturn.lazyGen (runDecoder fmt opts lines false), none, false⟩
      else
        match runDecoder fmt opts lines false with
        | (recs, none) => ⟨ParseReturn.eagerList recs, none, false⟩
        | (_, some e) => ⟨ParseReturn.raised e, none, false⟩
  else
    ⟨ParseReturn.raised (PError.valueError ("Unsupported format: " ++ fmt)), none, false⟩

/-- The configuration error of the fixed-width decoder. -/
def fixedSchemaError : PError :=
  PError.valueError "fixed_schema is required for fixed-width parsing"

/-- Spec-side description of a delimited record body, following the
amended wording: header columns in header order, each bound to the row
value at its position, with the trailing columns of a short row bound
to the null value. -/
def specFields : List String → List String → Record
  | [], _ => []
  | h :: hs, [] => (Key.name h, Value.null) :: specFields hs []
  | h :: hs, v :: vs => (Key.name h, Value.str v) :: specFields hs vs

/-- Spec-side description of a delimited record: the header-ordered
fields followed, for a row longer than the header, by the reserved
restkey field holding the overflow values. -/
def specCsvRecord (header row : List String) : Record :=
  specFields header row ++
    (if header.length < row.length then
      [(Key.restkey, Value.vlist ((row.drop header.length).map Value.str))]
     else [])

/-- Spec-side description of the fixed-width fields: one field per
schema entry in schema order, whose value is the whitespace-trimmed
slice of the padded line at the field's cumulative offset. -/
def specSlices : List (String × Nat) → String → Nat → Record
  | [], _, _ => []
  | nw :: rest, raw, pos =>
    (Key.name nw.1, Value.str (pyStrip (pySlice raw pos (pos + nw.2)))) ::
      specSlices rest raw (pos + nw.2)

/-- Spec-side description of a fixed-width record, following the
claim's wording: the line is right-padded with spaces to the schema's
total width, each field is the trimmed slice at its declared position,
and the 1-based line number is appended as the reserved field. -/
def specFixedRecord (schema : List (String × Nat)) (lineNo : Nat) (line : String) : Record :=
  let totalWidth := (schema.map Prod.snd).sum
  let raw := pyLjust (rstripN line) totalWidth
  specSlices schema raw 0 ++ [(Key.name "_line_no", Value.nat lineNo)]

theorem Key.name_injective : Function.Injective Key.name := by
  intro a b h
  cases h
  rfl

theorem dictInsert_of_not_mem (r : Record) (k : Key) (v : Value)
    (h : k ∉ recordKeys r) : dictInsert r k v = r ++ [(k, v)] := by
  unfold dictInsert
  unfold recordKeys at h
  rw [if_neg h]

theorem recordKeys_dictInsert (r : Record) (k : Key) (v : Value) :
    recordKeys (dictInsert r k v) =
      if k ∈ recordKeys r then recordKeys r else recordKeys r ++ [k] := by
  unfold dictInsert recordKeys
  by_cases h : k ∈ r.map Prod.fst
  · rw [if_pos h, if_pos h, List.map_map]
    refine List.map_congr_left ?_
    intro p _
    by_cases hp : p.1 = k
    · simp [hp]
    · simp [hp]
  · rw [if_neg h, if_neg h, List.map_append]
    rfl

theorem recordKeys_append (r s : Record) :
    recordKeys (r ++ s) = recordKeys r ++ recordKeys s := by
  unfold recordKeys
  exact List.map_append _ _ _

theorem foldl_dictInsert_append (entries : List (Key × Value)) :
    ∀ r : Record,
      (entries.map Prod.fst).Nodup →
      (∀ k ∈ entries.map Prod.fst, k ∉ recordKeys r) →
      entries.foldl (fun acc kv => dictInsert acc kv.1 kv.2) r = r ++ entries := by
  induction entries with
  | nil => intro r _ _; simp
  | cons e es ih =>
    intro r hnd hdisj
    have hfresh : e.1 ∉ recordKeys r := hdisj e.1 (by simp)
    have hstep : dictInsert r e.1 e.2 = r ++ [e] := by
      rw [dictInsert_of_not_mem r e.1 e.2 hfresh]
    have hnd' : (es.map Prod.fst).Nodup := (List.nodup_cons.mp (by simpa using hnd)).2
    have hdisj' : ∀ k ∈ es.map Prod.fst, k ∉ recordKeys (r ++ [e]) := by
      intro k hk
      rw [recordKeys_append]
      intro hmem
      rcases List.mem_append.mp hmem with hr | he
      · exact hdisj k (by simp [hk]) hr
      · have hke : k = e.1 := by simpa [recordKeys] using he
        have : e.1 ∉ es.map Prod.fst := (List.nodup_cons.mp (by simpa using hnd)).1
        exact this (hke ▸ hk)
    calc (e :: es).foldl (fun acc kv => dictInsert acc kv.1 kv.2) r
        = es.foldl (fun acc kv => dictInsert acc kv.1 kv.2) (r ++ [e]) := by
          simp [List.foldl_cons, hstep]
      _ = (r ++ [e]) ++ es := ih (r ++ [e]) hnd' hdisj'
      _ = r ++ (e :: es) := by simp

theorem zip_map_fst_take (l1 l2 : List String) :
    (List.zip l1 l2).map Prod.fst = l1.take l2.length := by
  induction l1 generalizing l2 with
  | nil => simp
  | cons a l ih =>
    cases l2 with
    | nil => simp
    | cons b l2' => simp [ih l2']

theorem specFields_eq_zip (header : List String) :
    ∀ row : List String,
      specFields header row =
        (List.zip header row).map (fun kv => (Key.name kv.1, Value.str kv.2)) ++
          (header.drop row.length).map (fun k => (Key.name k, Value.null)) := by
  induction header with
  | nil => intro row; simp [specFields]
  | cons h hs ih =>
    intro row
    cases row with
    | nil => simp [specFields, ih []]
    | cons v vs => simp [specFields, ih vs]

theorem recordKeys_specFields (header : List String) :
    ∀ row : List String,
      recordKeys (specFields header row) = header.map Key.name := by
  induction header with
  | nil => intro row; simp [specFields, recordKeys]
  | cons h hs ih =>
    intro row
    cases row with
    | nil => simp [specFields, recordKeys, ← ih []]
    | cons v vs => simp [specFields, recordKeys, ← ih vs]

theorem csvRow_eq_specRow (header row : List String) (hnd : header.Nodup) :
    csvRowRecord header row = specCsvRecord header row := by
  have hzipkeys :
      ((List.zip header row).map (fun kv => (Key.name kv.1, Value.str kv.2))).map Prod.fst =
        (header.take row.length).map Key.name := by
    rw [List.map_map]
    have : (Prod.fst ∘ fun kv : String × String => (Key.name kv.1, Value.str kv.2)) =
        fun kv : String × String => Key.name kv.1 := rfl
    rw [this, show (fun kv : String × String => Key.name kv.1) =
      Key.name ∘ Prod.fst from rfl, ← List.map_map, zip_map_fst_take]
  have hd :
      (List.zip header row).foldl (fun r kv => dictInsert r (Key.name kv.1) (Value.str kv.2)) [] =
        (List.zip header row).map (fun kv => (Key.name kv.1, Value.str kv.2)) := by
    have := foldl_dictInsert_append
      ((List.zip header row).map (fun kv => (Key.name kv.1, Value.str kv.2))) []
      (by
        rw [hzipkeys]
        exact ((hnd.sublist (List.take_sublist _ _))).map Key.name_injective)
      (by intro k _; simp [recordKeys])
    rw [List.foldl_map] at this
    simpa using this
  unfold csvRowRecord specCsvRecord
  rcases Nat.lt_trichotomy header.length row.length with hlt | heq | hgt
  · rw [if_pos hlt, if_pos hlt, hd]
    have hrest : Key.restkey ∉
        recordKeys ((List.zip header row).map (fun kv => (Key.name kv.1, Value.str kv.2))) := by
      unfold recordKeys
      rw [hzipkeys]
      intro hmem
      rcases List.mem_map.mp hmem with ⟨x, -, hx⟩
      exact Key.noConfusion hx
    rw [dictInsert_of_not_mem _ _ _ hrest, specFields_eq_zip]
    have hdrop : header.drop row.length = [] :=
      List.drop_eq_nil_of_le (Nat.le_of_lt hlt)
    rw [hdrop]
    simp
  · rw [if_neg (by omega), if_neg (by omega), if_neg (by omega), hd, specFields_eq_zip]
    have hdrop : header.drop row.length = [] :=
      List.drop_eq_nil_of_le (Nat.le_of_eq heq)
    rw [hdrop]
    simp
  · rw [if_neg (by omega : ¬ header.length < row.length), if_pos hgt,
      if_neg (by omega : ¬ header.length < row.length), hd, specFields_eq_zip]
    have hfold := foldl_dictInsert_append
      ((header.drop row.length).map (fun k => (Key.name k, Value.null)))
      ((List.zip header row).map (fun kv => (Key.name kv.1, Value.str kv.2)))
      (by
        rw [List.map_map]
        have : (Prod.fst ∘ fun k : String => (Key.name k, Value.null)) = Key.name := rfl
        rw [this]
        exact ((hnd.sublist (List.drop_sublist _ _))).map Key.name_injective)
      (by
        intro k hk
        rw [List.map_map] at hk
        have : (Prod.fst ∘ fun k : String => (Key.name k, Value.null)) = Key.name := rfl
        rw [this] at hk
        rcases List.mem_map.mp hk with ⟨x, hx, hxe⟩
        unfold recordKeys
        rw [hzipkeys]
        intro hmem
        rcases List.mem_map.mp hmem with ⟨y, hy, hye⟩
        have hxy : y = x := Key.name_injective (by rw [hye, hxe])
        have hxtake : x ∈ header.take row.length := hxy ▸ hy
        have hdisj := List.disjoint_take_drop (m := row.length) (n := row.length) hnd le_rfl
        exact hdisj hxtake hx)
    rw [List.foldl_map] at hfold
    simpa using hfold

theorem recordKeys_specSlices (schema : List (String × Nat)) :
    ∀ (raw : String) (pos : Nat),
      recordKeys (specSlices schema raw pos) = schema.map (fun nw => Key.name nw.1) := by
  induction schema with
  | nil => intro raw pos; simp [specSlices, recordKeys]
  | cons nw rest ih => intro raw pos; simp [specSlices, recordKeys, ← ih raw (pos + nw.2)]

theorem fixedFold_append (raw : String) (schema : List (String × Nat)) :
    ∀ (r : Record) (pos : Nat),
      (schema.map Prod.fst).Nodup →
      (∀ n ∈ schema.map Prod.fst, Key.name n ∉ recordKeys r) →
      schema.foldl
        (fun (acc : Record × Nat) nw =>
          (dictInsert acc.1 (Key.name nw.1) (Value.str (pyStrip (pySlice raw acc.2 (acc.2 + nw.2)))),
           acc.2 + nw.2)) (r, pos) =
      (r ++ specSlices schema raw pos, pos + (schema.map Prod.snd).sum) := by
  induction schema with
  | nil => intro r pos _ _; simp [specSlices]
  | cons nw rest ih =>
    intro r pos hnd hdisj
    have hfresh : Key.name nw.1 ∉ recordKeys r := hdisj nw.1 (by simp)
    have hstep := dictInsert_of_not_mem r (Key.name nw.1)
      (Value.str (pyStrip (pySlice raw pos (pos + nw.2)))) hfresh
    have hnd' : (rest.map Prod.fst).Nodup := (List.nodup_cons.mp (by simpa using hnd)).2
    have hdisj' : ∀ n ∈ rest.map Prod.fst,
        Key.name n ∉ recordKeys (r ++ [(Key.name nw.1, Value.str (pyStrip (pySlice raw pos (pos + nw.2))))]) := by
      intro n hn
      rw [recordKeys_append]
      intro hmem
      rcases List.mem_append.mp hmem with hr | he
      · exact hdisj n (by simp [hn]) hr
      · have hne : n = nw.1 := by
          have : Key.name n = Key.name nw.1 := by simpa [recordKeys] using he
          exact Key.name_injective this
        have hhead : nw.1 ∉ rest.map Prod.fst := (List.nodup_cons.mp (by simpa using hnd)).1
        exact hhead (hne ▸ hn)
    calc ((nw :: rest).foldl _ (r, pos))
        = rest.foldl _ (r ++ [(Key.name nw.1, Value.str (pyStrip (pySlice raw pos (pos + nw.2))))], pos + nw.2) := by
          simp [List.foldl_cons, hstep]
      _ = ((r ++ [(Key.name nw.1, Value.str (pyStrip (pySlice raw pos (pos + nw.2))))]) ++
            specSlices rest raw (pos + nw.2), (pos + nw.2) + (rest.map Prod.snd).sum) :=
          ih _ (pos + nw.2) hnd' hdisj'
      _ = (r ++ specSlices (nw :: rest) raw pos, pos + ((nw :: rest).map Prod.snd).sum) := by
          simp [specSlices]
          omega

theorem fixedRow_eq_specRow (schema : List (String × Nat)) (lineNo : Nat) (line : String)
    (hnd : (schema.map Prod.fst).Nodup) (hl : "_line_no" ∉ schema.map Prod.fst) :
    fixedRowRecord schema lineNo line = specFixedRecord schema lineNo line := by
  simp only [fixedRowRecord, specFixedRecord]
  rw [fixedFold_append _ schema [] 0 hnd (by intro n _; simp [recordKeys])]
  have hfresh : Key.name "_line_no" ∉
      recordKeys ([] ++ specSlices schema (pyLjust (rstripN line) ((schema.map Prod.snd).sum)) 0) := by
    rw [recordKeys_append, recordKeys_specSlices]
    intro hmem
    rcases List.mem_append.mp hmem with hemp | hs
    · simp [recordKeys] at hemp
    · rcases List.mem_map.mp hs with ⟨nw, hnw, he⟩
      exact hl (by
        have : nw.1 = "_line_no" := by
          have := Key.name_injective he
          exact this
        exact this ▸ List.mem_map.mpr ⟨nw, hnw, rfl⟩)
  rw [dictInsert_of_not_mem _ _ _ hfresh]
  simp

theorem recordKeys_fixedFold (schema : List (String × Nat)) :
    ∀ (raw1 raw2 : String) (r1 r2 : Record) (p1 p2 : Nat),
      recordKeys r1 = recordKeys r2 →
      recordKeys ((schema.foldl
        (fun (acc : Record × Nat) nw =>
          (dictInsert acc.1 (Key.name nw.1) (Value.str (pyStrip (pySlice raw1 acc.2 (acc.2 + nw.2)))),
           acc.2 + nw.2)) (r1, p1)).1) =
      recordKeys ((schema.foldl
        (fun (acc : Record × Nat) nw =>
          (dictInsert acc.1 (Key.name nw.1) (Value.str (pyStrip (pySlice raw2 acc.2 (acc.2 + nw.2)))),
           acc.2 + nw.2)) (r2, p2)).1) := by
  induction schema with
  | nil => intro raw1 raw2 r1 r2 p1 p2 h; simpa using h
  | cons nw rest ih =>
    intro raw1 raw2 r1 r2 p1 p2 h
    have hstep : recordKeys (dictInsert r1 (Key.name nw.1)
        (Value.str (pyStrip (pySlice raw1 p1 (p1 + nw.2))))) =
        recordKeys (dictInsert r2 (Key.name nw.1)
        (Value.str (pyStrip (pySlice raw2 p2 (p2 + nw.2))))) := by
      rw [recordKeys_dictInsert, recordKeys_dictInsert, h]
    simpa [List.foldl_cons] using ih raw1 raw2 _ _ (p1 + nw.2) (p2 + nw.2) hstep

theorem recordKeys_fixedRow (schema : List (String × Nat)) (lineNo : Nat) (line : String) :
    recordKeys (fixedRowRecord schema lineNo line) = recordKeys (fixedRowRecord schema 1 "") := by
  simp only [fixedRowRecord]
  have hbody := recordKeys_fixedFold schema
    (pyLjust (rstripN line) ((schema.map Prod.snd).sum))
    (pyLjust (rstripN "") ((schema.map Prod.snd).sum)) [] [] 0 0 rfl
  rw [recordKeys_dictInsert, recordKeys_dictInsert, hbody]

theorem parseModel_caller_stream (src : Source) (fmtArg : Option String) (opts : ParseOptions) :
    (parseModel src fmtArg opts).callerStreamClosed = false := by
  simp only [parseModel]
  by_cases hreg : resolveFormat fmtArg src ∈ registryTags
  · rw [if_pos hreg]
    cases src with
    | path p lines =>
      by_cases hs : opts.streamFlag
      · simp [hs]
      · rcases hrun : runDecoder (resolveFormat fmtArg (Source.path p lines)) opts lines false with ⟨recs, err⟩
        cases err <;> simp [hs, hrun]
    | stream sn lines =>
      by_cases hs : opts.streamFlag
      · simp [hs]
      · rcases hrun : runDecoder (resolveFormat fmtArg (Source.stream sn lines)) opts lines false with ⟨recs, err⟩
        cases err <;> simp [hs, hrun]
  · rw [if_neg hreg]

theorem parseModel_owned_path (p : String) (lines : List String) (fmtArg : Option String)
    (opts : ParseOptions) (hreg : resolveFormat fmtArg (Source.path p lines) ∈ registryTags) :
    (parseModel (Source.path p lines) fmtArg opts).ownedHandleClosed = some true := by
  simp only [parseModel]
  rw [if_pos hreg]
  by_cases hs : opts.streamFlag
  · simp [hs]
  · rcases hrun : runDecoder (resolveFormat fmtArg (Source.path p lines)) opts lines false with ⟨recs, err⟩
    cases err <;> simp [hs, hrun]

theorem parseModel_owned_ne_false (src : Source) (fmtArg : Option String) (opts : ParseOptions) :
    (parseModel src fmtArg opts).ownedHandleClosed ≠ some false := by
  simp only [parseModel]
  by_cases hreg : resolveFormat fmtArg src ∈ registryTags
  · rw [if_pos hreg]
    cases src with
    | path p lines =>
      by_cases hs : opts.streamFlag
      · simp [hs]
      · rcases hrun : runDecoder (resolveFormat fmtArg (Source.path p lines)) opts lines false with ⟨recs, err⟩
        cases err <;> simp [hs, hrun]
    | stream sn lines =>
      by_cases hs : opts.streamFlag
      · simp [hs]
      · rcases hrun : runDecoder (resolveFormat fmtArg (Source.stream sn lines)) opts lines false with ⟨recs, err⟩
        cases err <;> simp [hs, hrun]
  · rw [if_neg hreg]
    simp

/-- C1.  The claim says a parse call with stream=true on a path source
returns a lazy sequence from which the consumer can still obtain every
record after parse returns.  The code contradicts its own module
docstring here: the try/finally in FileParser.parse closes the file it
opened for the path before the returned generator has run, so consuming
the generator yields zero records and raises the closed-file ValueError.
The first conjunct evaluates the model at such a failing input (a text
file of two lines reached through a path); the second shows the same
call on a caller-supplied open stream, where the advertised lazy
behaviour does hold and consumption yields every record in source
order. -/
theorem C1_path_stream_loses_records :
    (parseModel (Source.path "data.txt" ["a", "b"]) none ⟨none, none, true⟩).ret =
      ParseReturn.lazyGen ([], some ioClosedError) ∧
    (parseModel (Source.stream none ["a", "b"]) (some "text") ⟨none, none, true⟩).ret =
      ParseReturn.lazyGen (textDecode ["a", "b"], none) :=
  ⟨rfl, rfl⟩

/-- C2.  On every call: the dispatcher never closes a caller-supplied
stream; whenever it opened a handle for a path the handle is closed by
the time the call finishes, on every exit path (the model records
`some false` for a handle left open at exit, and that value is never
produced, decoder failures included); and for every path source with a
registered format — the only case in which a handle is opened at all —
the handle is closed. -/
theorem C2_handle_lifecycle :
    ∀ (src : Source) (fmtArg : Option String) (opts : ParseOptions),
      (parseModel src fmtArg opts).callerStreamClosed = false ∧
      (parseModel src fmtArg opts).ownedHandleClosed ≠ some false ∧
      (∀ (p : String) (lines : List String),
        src = Source.path p lines →
        resolveFormat fmtArg src ∈ registryTags →
        (parseModel src fmtArg opts).ownedHandleClosed = some true) := by
  intro src fmtArg opts
  refine ⟨parseModel_caller_stream src fmtArg opts, parseModel_owned_ne_false src fmtArg opts, ?_⟩
  intro p lines hsrc hreg
  subst hsrc
  exact parseModel_owned_path p lines fmtArg opts hreg

/-- Witness for C2 at concrete inputs: a parse of the path a.csv closes
the handle the dispatcher opened, and a parse of a caller-supplied
stream does not close that stream. -/
theorem C2_handle_lifecycle_witness :
    (parseModel (Source.path "a.csv" ["h"]) none ⟨none, none, false⟩).ownedHandleClosed = some true ∧
    (parseModel (Source.stream none ["h"]) none ⟨none, none, false⟩).callerStreamClosed = false :=
  ⟨(C2_handle_lifecycle (Source.path "a.csv" ["h"]) none ⟨none, none, false⟩).2.2 "a.csv" ["h"]
      rfl (by decide),
   (C2_handle_lifecycle (Source.stream none ["h"]) none ⟨none, none, false⟩).1⟩

/-- Counterexample to C3 as stated: with stream=true, a parse call with
format fixed and no schema does not fail — it returns a generator (the
configuration error is only raised when the first record is
requested). -/
theorem C3_counterexample :
    (parseModel (Source.stream none ["x"]) (some "fixed") ⟨none, none, true⟩).ret =
      ParseReturn.lazyGen ([], some fixedSchemaError) :=
  rfl

/-- C3 amended: a fixed-format parse without a schema (the schema
absent, or present but empty, both Python-falsy) yields the
configuration error before any line of the input is read — the
decoder's outcome is the bare error independently of the input lines
and even of the handle state — and the error reaches the caller at the
parse call itself when stream=false, or at the first requested record
of the returned generator when stream=true. -/
theorem C3_amended :
    (∀ (lines : List String) (closed : Bool) (sch : Option (List (String × Nat)))
        (d : Option String) (b : Bool),
        sch = none ∨ sch = some [] →
        runDecoder "fixed" ⟨d, sch, b⟩ lines closed = ([], some fixedSchemaError)) ∧
    (∀ (src : Source) (sch : Option (List (String × Nat))),
        sch = none ∨ sch = some [] →
        (parseModel src (some "fixed") ⟨none, sch, false⟩).ret = ParseReturn.raised fixedSchemaError) ∧
    (∀ (src : Source) (sch : Option (List (String × Nat))),
        sch = none ∨ sch = some [] →
        (parseModel src (some "fixed") ⟨none, sch, true⟩).ret =
          ParseReturn.lazyGen ([], some fixedSchemaError)) := by
  refine ⟨?_, ?_, ?_⟩
  · intro lines closed sch d b h
    rcases h with h | h <;> subst h <;> rfl
  · intro src sch h
    rcases h with h | h <;> subst h <;> cases src <;> rfl
  · intro src sch h
    rcases h with h | h <;> subst h <;> cases src <;> rfl

/-- Witness for C3 amended at a concrete input. -/
theorem C3_amended_witness :
    runDecoder "fixed" ⟨none, none, true⟩ ["row1"] false = ([], some fixedSchemaError) ∧
    (parseModel (Source.stream none ["row1"]) (some "fixed") ⟨none, none, false⟩).ret =
      ParseReturn.raised fixedSchemaError :=
  ⟨C3_amended.1 ["row1"] false none none true (Or.inl rfl),
   C3_amended.2.1 (Source.stream none ["row1"]) none (Or.inl rfl)⟩

/-- Counterexample to C4 as stated: json is a decodable format, yet a
stream=false parse of an empty input raises the platform's Expecting
value decode error instead of returning an empty sequence. -/
theorem C4_counterexample :
    (parseModel (Source.path "empty" []) (some "json") ⟨none, none, false⟩).ret =
      ParseReturn.raised (PError.jsonDecodeError "Expecting value") :=
  rfl

/-- C4 amended: on empty input with stream=false the line-oriented
decodable formats csv, tsv, ndjson, ini and text return the empty
sequence, and fixed does so for every non-empty schema; the
whole-document formats json and xml instead raise their parse errors,
because an empty document is not a parseable value or element. -/
theorem C4_amended :
    (∀ sch : List (String × Nat), sch ≠ [] →
        (parseModel (Source.path "empty" []) (some "fixed") ⟨none, some sch, false⟩).ret =
          ParseReturn.eagerList []) ∧
    (parseModel (Source.path "empty" []) (some "csv") ⟨none, none, false⟩).ret =
      ParseReturn.eagerList [] ∧
    (parseModel (Source.path "empty" []) (some "tsv") ⟨none, none, false⟩).ret =
      ParseReturn.eagerList [] ∧
    (parseModel (Source.path "empty" []) (some "ndjson") ⟨none, none, false⟩).ret =
      ParseReturn.eagerList [] ∧
    (parseModel (Source.path "empty" []) (some "ini") ⟨none, none, false⟩).ret =
      ParseReturn.eagerList [] ∧
    (parseModel (Source.path "empty" []) (some "text") ⟨none, none, false⟩).ret =
      ParseReturn.eagerList [] ∧
    (parseModel (Source.path "empty" []) (some "json") ⟨none, none, false⟩).ret =
      ParseReturn.raised (PError.jsonDecodeError "Expecting value") ∧
    (parseModel (Source.path "empty" []) (some "xml") ⟨none, none, false⟩).ret =
      ParseReturn.raised (PError.xmlParseError "no element found") := by
  refine ⟨?_, rfl, rfl, rfl, rfl, rfl, rfl, rfl⟩
  intro sch h
  cases sch with
  | nil => exact absurd rfl h
  | cons a rest => rfl

/-- Witness for C4 amended at a concrete non-empty schema. -/
theorem C4_amended_witness :
    ([("name", 4)] : List (String × Nat)) ≠ [] ∧
    (parseModel (Source.path "empty" []) (some "fixed") ⟨none, some [("name", 4)], false⟩).ret =
      ParseReturn.eagerList [] :=
  ⟨by decide, C4_amended.1 [("name", 4)] (by decide)⟩

/-- Counterexample to C5 as stated: with header a,b,c and row 1,2 the
trailing field is not absent — the key c is present and bound to the
null value (DictReader fills missing trailing fields with its restval,
which defaults to None). -/
theorem C5_counterexample :
    csvDecode none ["a,b,c", "1,2"] =
      [[(Key.name "a", Value.str "1"), (Key.name "b", Value.str "2"), (Key.name "c", Value.null)]] ∧
    recordKeys ((csvDecode none ["a,b,c", "1,2"]).getD 0 []) =
      [Key.name "a", Key.name "b", Key.name "c"] :=
  ⟨rfl, rfl⟩

/-- C5 amended: header columns become field names in header order; a
row with fewer fields than the header keeps every header field name
present, binding the trailing ones to the null value; a row with more
fields than the header collects the overflow values under the reserved
restkey field.  The refinement holds for every header without duplicate
column names, and the claim's overflow example evaluates as stated. -/
theorem C5_amended :
    (∀ header row : List String, header.Nodup →
        csvRowRecord header row = specCsvRecord header row) ∧
    csvDecode none ["a,b,c", "1,2,3,4"] =
      [[(Key.name "a", Value.str "1"), (Key.name "b", Value.str "2"), (Key.name "c", Value.str "3"),
        (Key.restkey, Value.vlist [Value.str "4"])]] :=
  ⟨fun header row hnd => csvRow_eq_specRow header row hnd, rfl⟩

/-- Witness for C5 amended at the claim's short-row example. -/
theorem C5_amended_witness :
    (["a", "b", "c"] : List String).Nodup ∧
    csvRowRecord ["a", "b", "c"] ["1", "2"] = specCsvRecord ["a", "b", "c"] ["1", "2"] :=
  ⟨by decide, C5_amended.1 ["a", "b", "c"] ["1", "2"] (by decide)⟩

/-- Counterexample to C6 as stated: the claim's example line "Al 5 "
(five characters, single spaces) does not yield name Al and age 5 — the
name column is four characters wide, so its slice is "Al 5" and the age
slice is blank. -/
theorem C6_counterexample :
    fixedDecode [("name", 4), ("age", 2)] ["Al 5 "] =
      [[(Key.name "name", Value.str "Al 5"), (Key.name "age", Value.str ""),
        (Key.name "_line_no", Value.nat 1)]] :=
  rfl

/-- C6 amended: each line is right-padded with spaces to the schema's
total width before slicing (short lines never raise), each field is the
whitespace-trimmed slice at its declared position, and the 1-based line
number is appended as the reserved field — proved as a refinement for
every schema with distinct field names not using the reserved name.
The claimed output arises from the line "Al  5 " (name column padded to
its width of four); the claim's line "Al 5 " instead yields name "Al 5"
and a blank age. -/
theorem C6_amended :
    (∀ (schema : List (String × Nat)) (lineNo : Nat) (line : String),
        (schema.map Prod.fst).Nodup → "_line_no" ∉ schema.map Prod.fst →
        fixedRowRecord schema lineNo line = specFixedRecord schema lineNo line) ∧
    fixedDecode [("name", 4), ("age", 2)] ["Al  5 "] =
      [[(Key.name "name", Value.str "Al"), (Key.name "age", Value.str "5"),
        (Key.name "_line_no", Value.nat 1)]] ∧
    fixedDecode [("name", 4), ("age", 2)] ["Al 5 "] =
      [[(Key.name "name", Value.str "Al 5"), (Key.name "age", Value.str ""),
        (Key.name "_line_no", Value.nat 1)]] :=
  ⟨fun schema lineNo line hnd hl => fixedRow_eq_specRow schema lineNo line hnd hl, rfl, rfl⟩

/-- Witness for C6 amended at the corrected example input. -/
theorem C6_amended_witness :
    ((([("name", 4), ("age", 2)] : List (String × Nat)).map Prod.fst).Nodup) ∧
    ("_line_no" ∉ ([("name", 4), ("age", 2)] : List (String × Nat)).map Prod.fst) ∧
    fixedRowRecord [("name", 4), ("age", 2)] 1 "Al  5 " =
      specFixedRecord [("name", 4), ("age", 2)] 1 "Al  5 " :=
  ⟨by decide, by decide, C6_amended.1 [("name", 4), ("age", 2)] 1 "Al  5 " (by decide) (by decide)⟩

/-- Counterexample to C7 as stated: a markup run in which two sibling
elements carry different attribute names produces two records with
different field-name sets, with no short delimited row involved — the
records of a markup run have no common field-name set in general. -/
theorem C7_counterexample :
    parseXmlRoot (Element.mk "root" [] none
        [Element.mk "a" [("x", "1")] none [], Element.mk "b" [("y", "2")] none []]) =
      [[(Key.name "x", Value.str "1")], [(Key.name "y", Value.str "2")]] ∧
    Key.name "x" ∈ recordKeys ((parseXmlRoot (Element.mk "root" [] none
        [Element.mk "a" [("x", "1")] none [], Element.mk "b" [("y", "2")] none []])).getD 0 []) ∧
    Key.name "x" ∉ recordKeys ((parseXmlRoot (Element.mk "root" [] none
        [Element.mk "a" [("x", "1")] none [], Element.mk "b" [("y", "2")] none []])).getD 1 []) :=
  ⟨rfl, by decide, by decide⟩

/-- C7 amended: in a single run, every fixed-width record has the same
field-name set (the key list depends only on the schema, never on the
line); every delimited record over a duplicate-free header has the
header's field names, with rows longer than the header additionally
carrying the reserved overflow field (short rows keep the full header
set, bound to null values); markup records carry no such invariant —
their field sets follow each element's own attributes and children. -/
theorem C7_amended :
    (∀ (schema : List (String × Nat)) (lines : List String) (r1 r2 : Record),
        r1 ∈ fixedDecode schema lines → r2 ∈ fixedDecode schema lines →
        recordKeys r1 = recordKeys r2) ∧
    (∀ header row : List String, header.Nodup →
        recordKeys (csvRowRecord header row) =
          header.map Key.name ++
            (if header.length < row.length then [Key.restkey] else [])) := by
  constructor
  · intro schema lines r1 r2 h1 h2
    rcases List.mem_map.mp h1 with ⟨p1, -, he1⟩
    rcases List.mem_map.mp h2 with ⟨p2, -, he2⟩
    rw [← he1, ← he2, recordKeys_fixedRow schema (p1.1 + 1) p1.2,
      recordKeys_fixedRow schema (p2.1 + 1) p2.2]
  · intro header row hnd
    rw [csvRow_eq_specRow header row hnd]
    unfold specCsvRecord
    rw [recordKeys_append, recordKeys_specFields]
    by_cases h : header.length < row.length
    · rw [if_pos h, if_pos h]
      rfl
    · rw [if_neg h, if_neg h]
      rfl

/-- Witness for C7 amended: two fixed-width records of one run share
their key list, and a short delimited row keeps the full header key
set. -/
theorem C7_amended_witness :
    recordKeys (fixedRowRecord [("a", 1)] 1 "xy") = recordKeys (fixedRowRecord [("a", 1)] 2 "zw") ∧
    recordKeys (csvRowRecord ["a", "b"] ["1"]) =
      (["a", "b"] : List String).map Key.name ++
        (if (["a", "b"] : List String).length < (["1"] : List String).length
         then [Key.restkey] else []) := by
  have e : fixedDecode [("a", 1)] ["xy", "zw"] =
      [fixedRowRecord [("a", 1)] 1 "xy", fixedRowRecord [("a", 1)] 2 "zw"] := rfl
  exact ⟨C7_amended.1 [("a", 1)] ["xy", "zw"] _ _
      (e ▸ List.mem_cons_self _ _) (e ▸ List.mem_cons_of_mem _ (List.mem_cons_self _ _)),
    C7_amended.2 ["a", "b"] ["1"] (by decide)⟩

theorem pyLower_guessFormat (p : String) : pyLower (guessFormat p) = guessFormat p := by
  simp only [guessFormat]
  split_ifs <;> rfl

/-- C8.  The format resolver is a total function of the path string
alone: for every path whose lowercased splitext extension is in the
fixed table it returns the documented tag, for every other extension it
returns the unresolved tag unknown, and an explicit format argument
bypasses the resolver entirely (the dispatcher then lowercases the
argument itself). -/
theorem C8_format_resolver :
    (∀ p : String, pyLower (splitextExt p) = ".csv" → guessFormat p = "csv") ∧
    (∀ p : String, pyLower (splitextExt p) ∈ [".tsv", ".tab"] → guessFormat p = "tsv") ∧
    (∀ p : String, pyLower (splitextExt p) = ".json" → guessFormat p = "json") ∧
    (∀ p : String, pyLower (splitextExt p) ∈ [".ndjson", ".jsonl"] → guessFormat p = "ndjson") ∧
    (∀ p : String, pyLower (splitextExt p) = ".xml" → guessFormat p = "xml") ∧
    (∀ p : String, pyLower (splitextExt p) ∈ [".ini", ".cfg"] → guessFormat p = "ini") ∧
    (∀ p : String, pyLower (splitextExt p) ∈ [".txt", ".log"] → guessFormat p = "text") ∧
    (∀ p : String,
        pyLower (splitextExt p) ∉
          [".csv", ".tsv", ".tab", ".json", ".ndjson", ".jsonl", ".xml", ".ini", ".cfg", ".txt", ".log"] →
        guessFormat p = "unknown") ∧
    (∀ (f : String) (src : Source), resolveFormat (some f) src = pyLower f) ∧
    (∀ (p : String) (lines : List String),
        resolveFormat none (Source.path p lines) = guessFormat p) := by
  refine ⟨?_, ?_, ?_, ?_, ?_, ?_, ?_, ?_, ?_, ?_⟩
  · intro p h
    simp only [guessFormat]
    rw [h]
    rfl
  · intro p h
    simp only [List.mem_cons, List.not_mem_nil, or_false, List.mem_singleton] at h
    rcases h with h | h <;> (simp only [guessFormat]; rw [h]; rfl)
  · intro p h
    simp only [guessFormat]
    rw [h]
    rfl
  · intro p h
    simp only [List.mem_cons, List.not_mem_nil, or_false, List.mem_singleton] at h
    rcases h with h | h <;> (simp only [guessFormat]; rw [h]; rfl)
  · intro p h
    simp only [guessFormat]
    rw [h]
    rfl
  · intro p h
    simp only [List.mem_cons, List.not_mem_nil, or_false, List.mem_singleton] at h
    rcases h with h | h <;> (simp only [guessFormat]; rw [h]; rfl)
  · intro p h
    simp only [List.mem_cons, List.not_mem_nil, or_false, List.mem_singleton] at h
    rcases h with h | h <;> (simp only [guessFormat]; rw [h]; rfl)
  · intro p h
    simp only [List.mem_cons, List.not_mem_nil, or_false, not_or] at h
    obtain ⟨h1, h2, h3, h4, h5, h6, h7, h8, h9, h10, h11⟩ := h
    simp [guessFormat, h1, h2, h3, h4, h5, h6, h7, h8, h9, h10, h11]
  · intro f src
    rfl
  · intro p lines
    show pyLower (guessFormat p) = guessFormat p
    exact pyLower_guessFormat p

/-- Witness for C8 across the extension table, an unresolved extension,
and an explicit override. -/
theorem C8_format_resolver_witness :
    guessFormat "data.csv" = "csv" ∧ guessFormat "a.tsv" = "tsv" ∧ guessFormat "b.tab" = "tsv" ∧
    guessFormat "a.json" = "json" ∧ guessFormat "a.ndjson" = "ndjson" ∧
    guessFormat "a.jsonl" = "ndjson" ∧ guessFormat "a.xml" = "xml" ∧
    guessFormat "a.ini" = "ini" ∧ guessFormat "a.cfg" = "ini" ∧
    guessFormat "a.txt" = "text" ∧ guessFormat "a.log" = "text" ∧
    guessFormat "archive.dat" = "unknown" ∧
    resolveFormat (some "CSV") (Source.path "notes.txt" []) = "csv" := by
  obtain ⟨h1, h2, h3, h4, h5, h6, h7, h8, h9, h10⟩ := C8_format_resolver
  exact ⟨h1 "data.csv" (by decide), h2 "a.tsv" (by decide), h2 "b.tab" (by decide),
    h3 "a.json" (by decide), h4 "a.ndjson" (by decide), h4 "a.jsonl" (by decide),
    h5 "a.xml" (by decide), h6 "a.ini" (by decide), h6 "a.cfg" (by decide),
    h7 "a.txt" (by decide), h7 "a.log" (by decide), h8 "archive.dat" (by decide),
    (h9 "CSV" (Source.path "notes.txt" [])).trans rfl⟩

/-- C9.  For every resolved format tag missing from the dispatcher's
registry, the parse call raises the unsupported-format ValueError whose
message names the offending (lowercased) tag; the check precedes the
open, so no handle is created and no decoding is performed (the model
records no handle and no decoder run for that exit). -/
theorem C9_unsupported_format :
    ∀ (src : Source) (fmtArg : Option String) (opts : ParseOptions),
      resolveFormat fmtArg src ∉ registryTags →
      parseModel src fmtArg opts =
        ⟨ParseReturn.raised
          (PError.valueError ("Unsupported format: " ++ resolveFormat fmtArg src)),
         none, false⟩ := by
  intro src fmtArg opts h
  simp only [parseModel]
  rw [if_neg h]

/-- Witness for C9 at the concrete unregistered tag yaml. -/
theorem C9_unsupported_format_witness :
    resolveFormat (some "yaml") (Source.stream none ["x"]) ∉ registryTags ∧
    parseModel (Source.stream none ["x"]) (some "yaml") ⟨none, none, true⟩ =
      ⟨ParseReturn.raised (PError.valueError "Unsupported format: yaml"), none, false⟩ := by
  refine ⟨by decide, ?_⟩
  exact C9_unsupported_format (Source.stream none ["x"]) (some "yaml") ⟨none, none, true⟩ (by decide)

/-- C10.  The unresolved tag unknown is itself registered, its decoder
is the same per-line loop as the plain-text decoder — for each 1-based
line, blank lines included, the record holds line_no and the
newline-stripped text — and a stream=false parse of a path with an
unrecognized extension succeeds with exactly those records. -/
theorem C10_unknown_format_decodes :
    ("unknown" ∈ registryTags) ∧
    (∀ lines : List String, unknownDecode lines = textDecode lines) ∧
    (∀ lines : List String, unknownDecode lines =
        lines.enum.map (fun q =>
          [(Key.name "line_no", Value.nat (q.1 + 1)),
           (Key.name "text", Value.str (rstripN q.2))])) ∧
    (∀ (p : String) (lines : List String), guessFormat p = "unknown" →
        (parseModel (Source.path p lines) none ⟨none, none, false⟩).ret =
          ParseReturn.eagerList (unknownDecode lines)) := by
  refine ⟨by decide, fun lines => rfl, fun lines => rfl, ?_⟩
  intro p lines h
  have hres : resolveFormat none (Source.path p lines) = "unknown" := by
    show pyLower (guessFormat p) = "unknown"
    rw [h]
    rfl
  simp only [parseModel]
  rw [hres]
  rfl

/-- Witness for C10 at a path with an unrecognized extension and an
input containing a blank line. -/
theorem C10_unknown_format_witness :
    guessFormat "data.xyz" = "unknown" ∧
    (parseModel (Source.path "data.xyz" ["l1", ""]) none ⟨none, none, false⟩).ret =
      ParseReturn.eagerList (unknownDecode ["l1", ""]) :=
  ⟨by decide, C10_unknown_format_decodes.2.2.2 "data.xyz" ["l1", ""] (by decide)⟩
